import Mathlib

/-!
Verification of the bucket-archiver pipeline (pschou/bucket-archiver).

The Go source is shallowly embedded: each stage of the pipeline
(Reader/ReadMetadata, Downloader, Scanner, Archiver, Uploader) becomes a
pure Lean function over explicit state, with external effects (S3 GET
results, ClamAV scan results, multipart-upload results) supplied as
oracle values.  Machine integers (Go int64) are modelled as Int; sizes
that the code keeps non-negative are modelled as Nat where noted.
-/

namespace BucketArchiver

/-- MetaEntry from metadata.go: one JSON record per source object. -/
structure MetaEntry where
  key : String
  size : Int
deriving DecidableEq, Repr

/-- DownloadTask from download.go: queue item between Reader and Downloader. -/
structure DownloadTask where
  size : Int
  filename : String
deriving DecidableEq, Repr

/-- DownloadedFile from download.go (also ScannedFile in part_000): the
WorkFile representation.  Exactly one of bytes / tempFile carries the
payload; byte contents are modelled as a list of Nat (the values are
irrelevant to every claim, only the length matters). -/
structure DownloadedFile where
  size : Int
  filename : String
  tempFile : String
  bytes : List Nat
deriving DecidableEq, Repr

/-- ScannedFile from part_000, structurally identical to DownloadedFile. -/
structure ScannedFile where
  size : Int
  filename : String
  tempFile : String
  bytes : List Nat
deriving DecidableEq, Repr

/-- ErrorEvent from error.go (the Read field is never set by the stages
modelled here, so it is omitted). -/
structure ErrorEvent where
  filename : String
  size : Int
  msg : String
deriving DecidableEq, Repr

/-- ArchiveFile from part_003: emitted by the Archiver when a segment
closes; contents is the manifest of source keys packed into the segment. -/
structure ArchiveFile where
  filename : String
  contents : List String
deriving DecidableEq, Repr

/-! ## Archiver (src/unnamed/part_003)

The archiver is a single-writer loop.  Its mutable package state
(archiveCount, archiveBytesWritten, the open writer handles, the running
contents manifest and the segment path) is gathered into ArchiverState;
the files sent on doneCh are collected in emitted (oldest first). -/

/-- Decimal digit character for d < 10. -/
def natToDigitChar (d : Nat) : Char := Char.ofNat (48 + d)

/-- Fuel-driven helper for decimal rendering; the fuel is structural so
that concrete values reduce inside the kernel. -/
def natToDecimalAux : Nat → Nat → List Char
  | 0, _ => []
  | fuel + 1, n =>
    if n < 10 then [natToDigitChar n]
    else natToDecimalAux fuel (n / 10) ++ [natToDigitChar (n % 10)]

/-- Canonical decimal rendering of a Nat (no leading zeros), used to model
Go's integer formatting. -/
def natToDecimal (n : Nat) : List Char := natToDecimalAux (n + 1) n

/-- Zero padding to width w, modelling the %07d verb. -/
def padZeros (w : Nat) (n : Nat) : List Char :=
  let s := natToDecimal n
  List.replicate (w - s.length) '0' ++ s

/-- Modelled from the spec: the ARCHIVE_NAME format-string default
(archive_%07d.tgz, one integer slot).  The variable ArchiveName is read
from the environment in pipeline wiring code absent from src/; part_003
formats the segment path with fmt.Sprintf(ArchiveName, archiveCount). -/
def sprintfArchiveName (n : Nat) : String :=
  String.mk ("archive_".data ++ padZeros 7 n ++ ".tgz".data)

/-- The Archiver's package-level state from part_003 plus the stream of
ArchiveFile values it has sent downstream. -/
structure ArchiverState where
  archiveOpen : Bool
  archiveCount : Nat
  archiveBytesWritten : Int
  tgzFile : String
  contents : List String
  emitted : List ArchiveFile
deriving DecidableEq, Repr

/-- Initial archiver state: archiveCount = 0, nothing open, nothing written. -/
def archiverInit : ArchiverState :=
  { archiveOpen := false, archiveCount := 0, archiveBytesWritten := 0,
    tgzFile := "", contents := [], emitted := [] }

/-- OpenArchive from part_003: increments archiveCount, creates the file
named by the format string at the incremented counter, and returns that
path. -/
def openArchive (s : ArchiverState) : ArchiverState × String :=
  let c := s.archiveCount + 1
  ({ s with archiveCount := c, archiveOpen := true }, sprintfArchiveName c)

/-- One iteration of the Archiver task loop in part_003 (lines 61-127):
open the initial segment if none is open; roll the segment when
archiveBytesWritten > 0 and archiveBytesWritten + task.Size > sizeCapLimit
(emitting the closed segment's ArchiveFile and resetting the byte count);
append the task's filename to the manifest and write the tar header; for
non-empty payloads add task.Size to archiveBytesWritten. -/
def archiverStep (sizeCapLimit : Int) (s : ArchiverState) (task : DownloadedFile) :
    ArchiverState :=
  let s1 :=
    if s.archiveOpen then s
    else
      let p := openArchive s
      { p.1 with tgzFile := p.2 }
  let s2 :=
    if s1.archiveBytesWritten > 0 ∧ s1.archiveBytesWritten + task.size > sizeCapLimit then
      let closed : ArchiveFile := { filename := s1.tgzFile, contents := s1.contents }
      let p := openArchive { s1 with emitted := s1.emitted ++ [closed], contents := [],
                                     archiveBytesWritten := 0 }
      { p.1 with tgzFile := p.2 }
    else s1
  let s3 := { s2 with contents := s2.contents ++ [task.filename] }
  if task.size = 0 then s3
  else { s3 with archiveBytesWritten := s3.archiveBytesWritten + task.size }

/-- The channel-closed branch of the Archiver (part_003 lines 46-59): if a
segment was ever opened, close it and emit its ArchiveFile. -/
def archiverFlush (s : ArchiverState) : ArchiverState :=
  if s.tgzFile = "" then s
  else { s with archiveOpen := false,
                emitted := s.emitted ++ [{ filename := s.tgzFile, contents := s.contents }],
                contents := [] }

/-- A whole Archiver run: fold the task loop over the arrival order, then
flush on channel close. -/
def archiverRun (sizeCapLimit : Int) (tasks : List DownloadedFile) : ArchiverState :=
  archiverFlush (tasks.foldl (archiverStep sizeCapLimit) archiverInit)

/-- Projection lemma: one archiver step emits a segment exactly when the
roll condition holds on the incoming state. -/
theorem archiverStep_emitted_eq (cap : Int) (s : ArchiverState) (t : DownloadedFile) :
    (archiverStep cap s t).emitted =
      if 0 < s.archiveBytesWritten ∧ cap < s.archiveBytesWritten + t.size then
        s.emitted ++ [{ filename := if s.archiveOpen then s.tgzFile
                                    else sprintfArchiveName (s.archiveCount + 1),
                        contents := s.contents }]
      else s.emitted := by
  by_cases ho : s.archiveOpen <;>
    by_cases hr : 0 < s.archiveBytesWritten ∧ cap < s.archiveBytesWritten + t.size <;>
      by_cases hz : t.size = 0 <;>
        simp [archiverStep, openArchive, ho, hr, hz] <;>
          split_ifs <;> simp_all

/-- Projection lemma: one archiver step always appends the task's filename
to the manifest of the (possibly freshly opened) segment. -/
theorem archiverStep_contents_eq (cap : Int) (s : ArchiverState) (t : DownloadedFile) :
    (archiverStep cap s t).contents =
      (if 0 < s.archiveBytesWritten ∧ cap < s.archiveBytesWritten + t.size then []
       else s.contents) ++ [t.filename] := by
  by_cases ho : s.archiveOpen <;>
    by_cases hr : 0 < s.archiveBytesWritten ∧ cap < s.archiveBytesWritten + t.size <;>
      by_cases hz : t.size = 0 <;>
        simp [archiverStep, openArchive, ho, hr, hz] <;>
          split_ifs <;> simp_all

/-- Projection lemma: bytes packed after one step. -/
theorem archiverStep_bytes_eq (cap : Int) (s : ArchiverState) (t : DownloadedFile) :
    (archiverStep cap s t).archiveBytesWritten =
      (if 0 < s.archiveBytesWritten ∧ cap < s.archiveBytesWritten + t.size then 0
       else s.archiveBytesWritten) + (if t.size = 0 then 0 else t.size) := by
  by_cases ho : s.archiveOpen <;>
    by_cases hr : 0 < s.archiveBytesWritten ∧ cap < s.archiveBytesWritten + t.size <;>
      by_cases hz : t.size = 0 <;>
        simp [archiverStep, openArchive, ho, hr, hz] <;>
          split_ifs <;> simp_all

/-- C2: the open segment is closed by the roll check exactly when the bytes
already packed are strictly positive and adding the incoming file's size
would strictly exceed the cap (archiveBytesWritten > 0 and
archiveBytesWritten + task.Size > sizeCapLimit); a segment with zero packed
bytes is never closed by the roll check, so an object larger than sizeCap
is still packed and, arriving into a fresh segment, ends up alone in it:
whatever arrives next closes that segment with the oversize object as its
only content. -/
theorem archiver_roll_condition (cap : Int) (s : ArchiverState) (t t2 : DownloadedFile)
    (ht2 : 0 ≤ t2.size) (hcap : 0 ≤ cap) :
    ((archiverStep cap s t).emitted.length =
        s.emitted.length +
          (if 0 < s.archiveBytesWritten ∧ cap < s.archiveBytesWritten + t.size then 1 else 0))
    ∧ (s.archiveBytesWritten = 0 →
        (archiverStep cap s t).emitted = s.emitted
        ∧ (archiverStep cap s t).contents = s.contents ++ [t.filename])
    ∧ (s.archiveBytesWritten = 0 → s.contents = [] → cap < t.size →
        (archiverStep cap (archiverStep cap s t) t2).emitted =
          s.emitted ++ [{ filename := (archiverStep cap s t).tgzFile,
                          contents := [t.filename] }]) := by
  refine ⟨?_, fun h0 => ⟨?_, ?_⟩, fun h0 hc hbig => ?_⟩
  · rw [archiverStep_emitted_eq]
    split_ifs <;> simp
  · rw [archiverStep_emitted_eq, if_neg]
    simp [h0]
  · rw [archiverStep_contents_eq, if_neg]
    simp [h0]
  · have hz : ¬ t.size = 0 := by omega
    have hb1 : (archiverStep cap s t).archiveBytesWritten = t.size := by
      rw [archiverStep_bytes_eq, if_neg, if_neg hz, h0]
      · omega
      · simp [h0]
    have hroll : 0 < (archiverStep cap s t).archiveBytesWritten ∧
        cap < (archiverStep cap s t).archiveBytesWritten + t2.size := by
      rw [hb1]; constructor <;> omega
    have hopen : (archiverStep cap s t).archiveOpen = true := by
      by_cases ho : s.archiveOpen <;>
        simp [archiverStep, openArchive, ho, hz] <;> split_ifs <;> simp_all
    have h1e : (archiverStep cap s t).emitted = s.emitted := by
      rw [archiverStep_emitted_eq, if_neg (by simp [h0])]
    have h1c : (archiverStep cap s t).contents = [t.filename] := by
      rw [archiverStep_contents_eq, if_neg (by simp [h0]), hc, List.nil_append]
    rw [archiverStep_emitted_eq cap (archiverStep cap s t) t2, if_pos hroll, hopen, h1e, h1c]
    simp

/-- Witness for archiver_roll_condition: cap 60, fresh state, an oversize
100-byte object followed by a 50-byte object. -/
theorem archiver_roll_condition_witness :
    (0 : Int) ≤ (50 : Int) ∧ (0 : Int) ≤ (60 : Int) ∧
    (((archiverStep 60 archiverInit ⟨100, "big.bin", "", []⟩).emitted.length =
        archiverInit.emitted.length +
          (if 0 < archiverInit.archiveBytesWritten ∧
              60 < archiverInit.archiveBytesWritten + (100 : Int) then 1 else 0))
    ∧ (archiverInit.archiveBytesWritten = 0 →
        (archiverStep 60 archiverInit ⟨100, "big.bin", "", []⟩).emitted = archiverInit.emitted
        ∧ (archiverStep 60 archiverInit ⟨100, "big.bin", "", []⟩).contents =
            archiverInit.contents ++ ["big.bin"])
    ∧ (archiverInit.archiveBytesWritten = 0 → archiverInit.contents = [] → (60 : Int) < 100 →
        (archiverStep 60 (archiverStep 60 archiverInit ⟨100, "big.bin", "", []⟩)
            ⟨50, "b.txt", "", []⟩).emitted =
          archiverInit.emitted ++
            [{ filename := (archiverStep 60 archiverInit ⟨100, "big.bin", "", []⟩).tgzFile,
               contents := ["big.bin"] }])) :=
  ⟨by decide, by decide,
    archiver_roll_condition 60 archiverInit ⟨100, "big.bin", "", []⟩ ⟨50, "b.txt", "", []⟩
      (by decide) (by decide)⟩

/-- C5 counterexample: segment names are produced from the counter after a
pre-increment, so the first segment opened from the initial state is
archive_0000001.tgz, not archive_0000000.tgz, and in the two-tiny-objects
scenario (50 B + 50 B, SIZECAP=60) the two keys land in archive_0000001.tgz
and archive_0000002.tgz. -/
theorem archive_first_name_counterexample :
    (archiverRun 60 [⟨50, "a.txt", "", []⟩, ⟨50, "b.txt", "", []⟩]).emitted =
      [{ filename := "archive_0000001.tgz", contents := ["a.txt"] },
       { filename := "archive_0000002.tgz", contents := ["b.txt"] }]
    ∧ (openArchive archiverInit).2 ≠ "archive_0000000.tgz"
    ∧ ¬ (archiverRun 60 [⟨50, "a.txt", "", []⟩, ⟨50, "b.txt", "", []⟩]).emitted =
        [{ filename := "archive_0000000.tgz", contents := ["a.txt"] },
         { filename := "archive_0000001.tgz", contents := ["b.txt"] }] := by
  decide

/-- C5 amended: the counter archiveCount does start at zero, but OpenArchive
increments it before formatting the name, so segment N is named with index
N+1: the first segment is archive_0000001.tgz, the second
archive_0000002.tgz, and in the two-tiny-objects scenario with SIZECAP=60
the keys land in archive_0000001.tgz and archive_0000002.tgz
respectively. -/
theorem archive_naming_amended :
    archiverInit.archiveCount = 0
    ∧ (∀ s : ArchiverState, (openArchive s).1.archiveCount = s.archiveCount + 1
        ∧ (openArchive s).2 = sprintfArchiveName (s.archiveCount + 1))
    ∧ (openArchive archiverInit).2 = "archive_0000001.tgz"
    ∧ (archiverRun 60 [⟨50, "a.txt", "", []⟩, ⟨50, "b.txt", "", []⟩]).emitted =
      [{ filename := "archive_0000001.tgz", contents := ["a.txt"] },
       { filename := "archive_0000002.tgz", contents := ["b.txt"] }] :=
  ⟨rfl, fun _ => ⟨rfl, rfl⟩, by decide, by decide⟩

/-! ## Uploader (src/uploader.go)

The Uploader receives ArchiveFile tasks in order; for each it calls
uploadFileInParts and, only when that returns nil, appends every entry of
the task's Contents to upload.log, removes the local segment file and
increments UploadedFiles.  A non-nil result hits log.Fatal, which
terminates the process: no later task is processed and nothing further is
appended.  The per-task multipart result is supplied as an oracle
(none = nil error). -/

/-- State accumulated by an Uploader run: the lines appended to
upload.log, the removed segment files, the UploadedFiles counter, and
whether log.Fatal terminated the process. -/
structure UploaderState where
  uploadLog : List String
  removed : List String
  uploadedFiles : Nat
  fatal : Bool
deriving DecidableEq, Repr

/-- Uploader loop from uploader.go lines 22-46, driven by the list of
(task, uploadFileInParts result) pairs in arrival order. -/
def uploaderRun : List (ArchiveFile × Option String) → UploaderState
  | [] => { uploadLog := [], removed := [], uploadedFiles := 0, fatal := false }
  | (task, res) :: rest =>
    match res with
    | some _ => { uploadLog := [], removed := [], uploadedFiles := 0, fatal := true }
    | none =>
      let s := uploaderRun rest
      { uploadLog := task.contents ++ s.uploadLog,
        removed := task.filename :: s.removed,
        uploadedFiles := s.uploadedFiles + 1,
        fatal := s.fatal }

/-- The ArchiveFile values whose multipart upload completed successfully
in a run: those processed before any failure (a failure kills the process,
so later tasks are never attempted) whose uploadFileInParts result was
nil. -/
def successfulUploads (tasks : List (ArchiveFile × Option String)) : List ArchiveFile :=
  (tasks.takeWhile (fun p => p.2 = none)).map Prod.fst

/-- C1: the keys appended to upload.log are exactly the concatenation of
the Contents lists of the ArchiveFile values whose multipart upload
returned nil; every entry of a successfully uploaded segment's Contents is
appended, and nothing is appended for a segment whose upload failed (the
failure is fatal).  In src/ no other code writes upload.log (metadata.go
only opens it for reading), so these are all the keys written. -/
theorem uploader_log_exactly_successful_contents
    (tasks : List (ArchiveFile × Option String)) :
    (uploaderRun tasks).uploadLog =
      ((successfulUploads tasks).map ArchiveFile.contents).flatten := by
  induction tasks with
  | nil => simp [uploaderRun, successfulUploads]
  | cons p rest ih =>
    obtain ⟨task, res⟩ := p
    cases res with
    | some e => simp [uploaderRun, successfulUploads]
    | none => simp [uploaderRun, successfulUploads, ih, List.takeWhile]

/-! ## Downloader, inline path (src/download.go)

For a task with Size <= 96*1024 the Downloader takes a pooled buffer
(32 KiB tier when Size <= 32*1024, else the 96 KiB tier), calls
downloadObjectToBuffer, and either emits a DownloadedFile built from
mem[:n] or posts one ErrorEvent and releases the buffer with putMemory.
The GET outcome (total bytes read and error) is supplied as an oracle. -/

/-- Result of downloadObjectToBuffer: the total byte count read into the
buffer and the error value, supplied as an oracle.  The code guarantees
n is at most the buffer length, which theorems take as a hypothesis. -/
structure GetResult where
  n : Nat
  err : Option String
deriving DecidableEq, Repr

/-- Length of the pooled buffer picked in download.go lines 69-74:
bufPool32 buffers are 32*1024 bytes (common.go); the larger tier is
modelled from the spec: the second pool holds maxInMem = 96 KiB buffers
(its make call is in wiring code absent from src/). -/
def poolBufferLen (size : Int) : Nat :=
  if size ≤ 32 * 1024 then 32 * 1024 else 96 * 1024

/-- Outcome of one inline download: at most one DownloadedFile emitted,
the ErrorEvents posted, and whether putMemory released the buffer. -/
structure InlineOutcome where
  emitted : Option DownloadedFile
  errors : List ErrorEvent
  releasedBuffer : Bool
deriving DecidableEq, Repr

/-- The inline (Size <= 96*1024) branch of the Downloader worker,
download.go lines 65-95.  The buffer contents are opaque; the emitted
Bytes slice mem[:n] is modelled as a take of the pooled buffer. -/
def inlineDownload (task : DownloadTask) (res : GetResult) : InlineOutcome :=
  let mem : List Nat := List.replicate (poolBufferLen task.size) 0
  match res.err with
  | some e =>
    { emitted := none,
      errors := [{ filename := task.filename, size := task.size,
                   msg := "Error downloading object " ++ task.filename ++ ": " ++ e }],
      releasedBuffer := true }
  | none =>
    if (res.n : Int) ≠ task.size then
      { emitted := none,
        errors := [{ filename := task.filename, size := task.size,
                     msg := "Short write for object " ++ task.filename }],
        releasedBuffer := true }
    else
      { emitted := some { size := task.size, filename := task.filename,
                          tempFile := "", bytes := mem.take res.n },
        errors := [],
        releasedBuffer := false }

/-- C3: on the inline path exactly one of two things happens: a
DownloadedFile whose Bytes length equals the task Size is emitted with no
ErrorEvent and no buffer release, or no file is emitted, exactly one
ErrorEvent is posted and the buffer is released via putMemory; the file
branch is taken precisely when the GET returned no error and read exactly
Size bytes (so a GET error or short read always lands in the error
branch). -/
theorem downloader_inline_exclusive_outcome (task : DownloadTask) (res : GetResult)
    (hmem : res.n ≤ poolBufferLen task.size) :
    ((inlineDownload task res).emitted.isSome ↔
      (res.err = none ∧ (res.n : Int) = task.size))
    ∧ ((inlineDownload task res).emitted.isSome →
        ∃ f, (inlineDownload task res).emitted = some f
          ∧ (f.bytes.length : Int) = task.size
          ∧ f.filename = task.filename ∧ f.size = task.size
          ∧ (inlineDownload task res).errors = []
          ∧ (inlineDownload task res).releasedBuffer = false)
    ∧ ((inlineDownload task res).emitted = none →
        (inlineDownload task res).errors.length = 1
          ∧ (inlineDownload task res).releasedBuffer = true) := by
  cases hres : res.err with
  | some e =>
    refine ⟨by simp [inlineDownload, hres], ?_, by simp [inlineDownload, hres]⟩
    simp [inlineDownload, hres]
  | none =>
    by_cases hn : (res.n : Int) = task.size
    · have hID : inlineDownload task res =
          InlineOutcome.mk
            (some (DownloadedFile.mk task.size task.filename ""
              ((List.replicate (poolBufferLen task.size) 0).take res.n)))
            [] false := by
        simp [inlineDownload, hres, hn]
      rw [hID]
      refine ⟨by simp [hres, hn], ?_, by simp⟩
      intro _
      refine ⟨_, rfl, ?_, rfl, rfl, rfl, rfl⟩
      simp [List.length_take, Nat.min_eq_left hmem, hn]
    · refine ⟨by simp [inlineDownload, hres, hn], ?_, by simp [inlineDownload, hres, hn]⟩
      simp [inlineDownload, hres, hn]

/-- Witness for downloader_inline_exclusive_outcome: a 5-byte object read
completely without error. -/
theorem downloader_inline_exclusive_outcome_witness :
    (5 : Nat) ≤ poolBufferLen 5 ∧
    (((inlineDownload ⟨5, "obj"⟩ ⟨5, none⟩).emitted.isSome ↔
      ((none : Option String) = none ∧ ((5 : Nat) : Int) = 5))
    ∧ ((inlineDownload ⟨5, "obj"⟩ ⟨5, none⟩).emitted.isSome →
        ∃ f, (inlineDownload ⟨5, "obj"⟩ ⟨5, none⟩).emitted = some f
          ∧ (f.bytes.length : Int) = 5
          ∧ f.filename = "obj" ∧ f.size = 5
          ∧ (inlineDownload ⟨5, "obj"⟩ ⟨5, none⟩).errors = []
          ∧ (inlineDownload ⟨5, "obj"⟩ ⟨5, none⟩).releasedBuffer = false)
    ∧ ((inlineDownload ⟨5, "obj"⟩ ⟨5, none⟩).emitted = none →
        (inlineDownload ⟨5, "obj"⟩ ⟨5, none⟩).errors.length = 1
          ∧ (inlineDownload ⟨5, "obj"⟩ ⟨5, none⟩).releasedBuffer = true)) :=
  ⟨by decide,
    downloader_inline_exclusive_outcome ⟨5, "obj"⟩ ⟨5, none⟩ (by decide)⟩

/-! ## Scanner (src/unnamed/part_000, lines 158-267)

Per WorkFile the scanner worker: forwards zero-size files untouched
without scanning; otherwise submits the buffer (inline) or the temp path
(spilled) to ClamAV and acts on the tri-state result.  The library result
is supplied as an oracle; OpenMemory's possible nil return on the inline
path is part of that oracle. -/

/-- Oracle for one scan attempt: whether clamav.OpenMemory succeeded
(inline path only), the virus name returned by the scan ("" when none),
and the scan error value. -/
structure ScanOutcome where
  memOpenOk : Bool
  virusName : String
  scanErr : Option String
deriving DecidableEq, Repr

/-- Effects of one Scanner worker invocation. -/
structure ScannerResult where
  forwarded : Option ScannedFile
  errors : List ErrorEvent
  releasedBuffer : Bool
  removedTemp : Bool
  scannedInc : Nat
deriving DecidableEq, Repr

/-- Substring containment, used to state that an error message carries the
virus name. -/
def strContains (hay needle : String) : Prop := ∃ p q, hay = p ++ needle ++ q

/-- One Scanner worker body from part_000 lines 177-264: ScannedFiles is
incremented once per task (deferred); zero-size tasks are forwarded
immediately; on the inline path a memory-open failure, a virus hit or a
scan error each post one ErrorEvent and release the buffer with putMemory;
on the spilled path a virus hit or scan error posts one ErrorEvent and
unlinks the temp file; a clean result forwards the ScannedFile. -/
def scannerStep (task : DownloadedFile) (o : ScanOutcome) : ScannerResult :=
  if task.size = 0 then
    { forwarded := some ⟨task.size, task.filename, "", []⟩,
      errors := [], releasedBuffer := false, removedTemp := false, scannedInc := 1 }
  else if task.tempFile = "" then
    if ¬ o.memOpenOk then
      { forwarded := none,
        errors := [⟨task.filename, task.size,
          "failed to open memory for scanning " ++ task.filename⟩],
        releasedBuffer := true, removedTemp := false, scannedInc := 1 }
    else if o.virusName ≠ "" then
      { forwarded := none,
        errors := [⟨task.filename, task.size,
          "virus found in " ++ task.filename ++ ": " ++ o.virusName⟩],
        releasedBuffer := true, removedTemp := false, scannedInc := 1 }
    else
      match o.scanErr with
      | some e =>
        { forwarded := none,
          errors := [⟨task.filename, task.size,
            "error scanning " ++ task.filename ++ ": " ++ e⟩],
          releasedBuffer := true, removedTemp := false, scannedInc := 1 }
      | none =>
        { forwarded := some ⟨task.size, task.filename, task.tempFile, task.bytes⟩,
          errors := [], releasedBuffer := false, removedTemp := false, scannedInc := 1 }
  else
    if o.virusName ≠ "" then
      { forwarded := none,
        errors := [⟨task.filename, task.size,
          "virus found in " ++ task.filename ++ ": " ++ o.virusName⟩],
        releasedBuffer := false, removedTemp := true, scannedInc := 1 }
    else
      match o.scanErr with
      | some e =>
        { forwarded := none,
          errors := [⟨task.filename, task.size,
            "error scanning " ++ task.filename ++ ": " ++ e⟩],
          releasedBuffer := false, removedTemp := true, scannedInc := 1 }
      | none =>
        { forwarded := some ⟨task.size, task.filename, task.tempFile, []⟩,
          errors := [], releasedBuffer := false, removedTemp := false, scannedInc := 1 }

/-- C7: ScannedFiles is incremented exactly once per WorkFile regardless
of outcome; a zero-size file is forwarded with no scan call (the result
does not depend on the scan oracle); a clean scan forwards the WorkFile
with unchanged Filename, Size, Bytes and TempFile; a virus result posts
one ErrorEvent whose message contains the virus name, releases the payload
(putMemory for an inline buffer, os.Remove for a temp file) and forwards
nothing; a scan error behaves the same apart from the message. -/
theorem scanner_outcomes (task : DownloadedFile) (o : ScanOutcome)
    (hwf : task.tempFile ≠ "" → task.bytes = []) :
    ((scannerStep task o).scannedInc = 1)
    ∧ (task.size = 0 →
        (∀ o2, scannerStep task o2 = scannerStep task o)
        ∧ (scannerStep task o).forwarded = some ⟨task.size, task.filename, "", []⟩
        ∧ (scannerStep task o).errors = [])
    ∧ (task.size ≠ 0 → o.memOpenOk → o.virusName = "" → o.scanErr = none →
        (scannerStep task o).forwarded =
          some ⟨task.size, task.filename, task.tempFile, task.bytes⟩
        ∧ (scannerStep task o).errors = [])
    ∧ (task.size ≠ 0 → o.memOpenOk → o.virusName ≠ "" →
        (scannerStep task o).forwarded = none
        ∧ (scannerStep task o).errors.length = 1
        ∧ (∀ ev ∈ (scannerStep task o).errors, strContains ev.msg o.virusName)
        ∧ (task.tempFile = "" → (scannerStep task o).releasedBuffer = true)
        ∧ (task.tempFile ≠ "" → (scannerStep task o).removedTemp = true))
    ∧ (task.size ≠ 0 → o.memOpenOk → o.virusName = "" → ∀ e, o.scanErr = some e →
        (scannerStep task o).forwarded = none
        ∧ (scannerStep task o).errors.length = 1
        ∧ (task.tempFile = "" → (scannerStep task o).releasedBuffer = true)
        ∧ (task.tempFile ≠ "" → (scannerStep task o).removedTemp = true)) := by
  by_cases hz : task.size = 0
  · refine ⟨by simp [scannerStep, hz], fun _ => ⟨fun o2 => by simp [scannerStep, hz], ?_, ?_⟩,
      fun h => absurd hz h, fun h => absurd hz h, fun h => absurd hz h⟩ <;>
      simp [scannerStep, hz]
  · by_cases ht : task.tempFile = ""
    · refine ⟨?_, fun h0 => absurd h0 hz, fun _ hm hv he => ?_, fun _ hm hv => ?_,
        fun _ hm hv e he => ?_⟩
      · by_cases hm : o.memOpenOk <;> by_cases hv : o.virusName = "" <;>
          cases hse : o.scanErr <;> simp [scannerStep, hz, ht, hm, hv, hse]
      · simp [scannerStep, hz, ht, hm, hv, he]
      · refine ⟨by simp [scannerStep, hz, ht, hm, hv], by simp [scannerStep, hz, ht, hm, hv],
          ?_, by simp [scannerStep, hz, ht, hm, hv], fun h => absurd ht h⟩
        intro ev hev
        simp [scannerStep, hz, ht, hm, hv] at hev
        refine ⟨"virus found in " ++ task.filename ++ ": ", "", ?_⟩
        rw [hev]
        simp
      · simp [scannerStep, hz, ht, hm, hv, he]
    · refine ⟨?_, fun h0 => absurd h0 hz, fun _ hm hv he => ?_, fun _ hm hv => ?_,
        fun _ hm hv e he => ?_⟩
      · by_cases hv : o.virusName = "" <;>
          cases hse : o.scanErr <;> simp [scannerStep, hz, ht, hv, hse]
      · rw [hwf ht]
        simp [scannerStep, hz, ht, hv, he]
      · refine ⟨by simp [scannerStep, hz, ht, hv], by simp [scannerStep, hz, ht, hv],
          ?_, fun h => absurd h ht, by simp [scannerStep, hz, ht, hv]⟩
        intro ev hev
        simp [scannerStep, hz, ht, hv] at hev
        refine ⟨"virus found in " ++ task.filename ++ ": ", "", ?_⟩
        rw [hev]
        simp
      · simp [scannerStep, hz, ht, hv, he]

/-- Witness for scanner_outcomes: an inline 4-byte file on which the scan
reports the virus name Eicar-Test-Signature. -/
theorem scanner_outcomes_witness :
    (("" : String) ≠ "" → ([1, 2, 3, 4] : List Nat) = [])
    ∧ ((scannerStep ⟨4, "f.bin", "", [1, 2, 3, 4]⟩ ⟨true, "Eicar-Test-Signature", none⟩).forwarded
        = none
      ∧ (scannerStep ⟨4, "f.bin", "", [1, 2, 3, 4]⟩
          ⟨true, "Eicar-Test-Signature", none⟩).errors.length = 1
      ∧ (scannerStep ⟨4, "f.bin", "", [1, 2, 3, 4]⟩
          ⟨true, "Eicar-Test-Signature", none⟩).scannedInc = 1) := by
  have h := scanner_outcomes ⟨4, "f.bin", "", [1, 2, 3, 4]⟩ ⟨true, "Eicar-Test-Signature", none⟩
    (fun hc => absurd rfl hc)
  have h4 := h.2.2.2.1 (by decide) (by decide) (by decide)
  exact ⟨fun hc => absurd rfl hc, h4.1, h4.2.1, h.1⟩

/-! ## Ranged download slicing (src/s3.go, downloadObjectInParts lines 407-500)

partSize = size / partCount (integer division); part i requests the
inclusive byte range [i*partSize, (i+1)*partSize - 1], except the last
part whose range ends at size - 1.  Sizes here are non-negative int64
values, modelled as Nat (the claim assumes 1 <= partCount <= size, under
which every quantity in the loop is non-negative). -/

/-- The inclusive byte ranges requested by downloadObjectInParts, in loop
order (part index 0 .. partCount-1). -/
def downloadPartRanges (size partCount : Nat) : List (Nat × Nat) :=
  let partSize := size / partCount
  (List.range partCount).map (fun i =>
    (i * partSize, if i = partCount - 1 then size - 1 else i * partSize + partSize - 1))

/-- C8: for 1 <= partCount <= size the requested ranges are in strictly
increasing order and pairwise disjoint (each range ends before the next
begins), every range is non-empty, and their union is exactly the byte
interval [0, size-1]. -/
theorem download_part_ranges_partition (size partCount : Nat)
    (h1 : 1 ≤ partCount) (h2 : partCount ≤ size) :
    (downloadPartRanges size partCount).Pairwise (fun r s => r.2 < s.1)
    ∧ (∀ r ∈ downloadPartRanges size partCount, r.1 ≤ r.2)
    ∧ (∀ x : Nat, (∃ r ∈ downloadPartRanges size partCount, r.1 ≤ x ∧ x ≤ r.2)
        ↔ x ≤ size - 1) := by
  have hp : 1 ≤ size / partCount := (Nat.one_le_div_iff (by omega)).2 h2
  have hkp : partCount * (size / partCount) ≤ size := Nat.mul_div_le size partCount
  have hlen : (downloadPartRanges size partCount).length = partCount := by
    simp [downloadPartRanges]
  refine ⟨?_, ?_, ?_⟩
  · rw [List.pairwise_iff_get]
    intro i j hij
    have hi : (i : Nat) < partCount := by have := i.isLt; omega
    have hj : (j : Nat) < partCount := by have := j.isLt; omega
    simp only [downloadPartRanges, List.get_eq_getElem, List.getElem_map, List.getElem_range]
    have hij2 : (i : Nat) < (j : Nat) := hij
    rw [if_neg (by omega : ¬ (i : Nat) = partCount - 1)]
    have ha : (i : Nat) * (size / partCount) + size / partCount
        = ((i : Nat) + 1) * (size / partCount) := by ring
    have hb : ((i : Nat) + 1) * (size / partCount) ≤ (j : Nat) * (size / partCount) :=
      Nat.mul_le_mul_right (size / partCount) (by omega)
    omega
  · intro r hr
    simp only [downloadPartRanges, List.mem_map, List.mem_range] at hr
    obtain ⟨i, hi, rfl⟩ := hr
    by_cases hlast : i = partCount - 1
    · rw [if_pos hlast]
      have ha : i * (size / partCount) + size / partCount
          = (i + 1) * (size / partCount) := by ring
      have hb : (i + 1) * (size / partCount) ≤ partCount * (size / partCount) :=
        Nat.mul_le_mul_right (size / partCount) (by omega)
      omega
    · rw [if_neg hlast]
      omega
  · intro x
    constructor
    · rintro ⟨r, hr, hx1, hx2⟩
      simp only [downloadPartRanges, List.mem_map, List.mem_range] at hr
      obtain ⟨i, hi, rfl⟩ := hr
      by_cases hlast : i = partCount - 1
      · rw [if_pos hlast] at hx2
        exact hx2
      · rw [if_neg hlast] at hx2
        have ha : i * (size / partCount) + size / partCount
            = (i + 1) * (size / partCount) := by ring
        have hb : (i + 1) * (size / partCount) ≤ partCount * (size / partCount) :=
          Nat.mul_le_mul_right (size / partCount) (by omega)
        omega
    · intro hx
      have hdm : size / partCount * (x / (size / partCount)) + x % (size / partCount) = x :=
        Nat.div_add_mod x (size / partCount)
      have hmod : x % (size / partCount) < size / partCount := Nat.mod_lt x (by omega)
      by_cases hq : x / (size / partCount) < partCount - 1
      · refine ⟨(x / (size / partCount) * (size / partCount),
          x / (size / partCount) * (size / partCount) + size / partCount - 1), ?_, ?_, ?_⟩
        · simp only [downloadPartRanges, List.mem_map, List.mem_range]
          exact ⟨x / (size / partCount), by omega, by rw [if_neg (by omega)]⟩
        · exact Nat.div_mul_le_self x (size / partCount)
        · have hc : size / partCount * (x / (size / partCount))
              = x / (size / partCount) * (size / partCount) := by ring
          omega
      · refine ⟨((partCount - 1) * (size / partCount), size - 1), ?_, ?_, hx⟩
        · simp only [downloadPartRanges, List.mem_map, List.mem_range]
          exact ⟨partCount - 1, by omega, by rw [if_pos rfl]⟩
        · have hb : (partCount - 1) * (size / partCount)
              ≤ x / (size / partCount) * (size / partCount) :=
            Nat.mul_le_mul_right (size / partCount) (by omega)
          have hc : size / partCount * (x / (size / partCount))
              = x / (size / partCount) * (size / partCount) := by ring
          have hd : x / (size / partCount) * (size / partCount) ≤ x :=
            Nat.div_mul_le_self x (size / partCount)
          omega

/-- Witness for download_part_ranges_partition: a 10-byte object split
into 3 parts, giving ranges (0,2), (3,5), (6,9). -/
theorem download_part_ranges_partition_witness :
    1 ≤ 3 ∧ 3 ≤ 10 ∧
    ((downloadPartRanges 10 3).Pairwise (fun r s => r.2 < s.1)
    ∧ (∀ r ∈ downloadPartRanges 10 3, r.1 ≤ r.2)
    ∧ (∀ x : Nat, (∃ r ∈ downloadPartRanges 10 3, r.1 ≤ x ∧ x ≤ r.2) ↔ x ≤ 10 - 1)) :=
  ⟨by decide, by decide, download_part_ranges_partition 10 3 (by decide) (by decide)⟩

/-! ## Reader (src/metadata.go, ReadMetadata lines 198-332)

A metadata line is modelled by how json.Unmarshal into MetaEntry treats
it: a line that unmarshals to an entry (ent key size; the trailing summary
line has no "key" field and therefore unmarshals to key "", size 0), or a
line whose JSON parse fails (badJSON).  ReadMetadata has two scanner
loops over the same open file handle: when SUBSET is set, a first
accounting pass runs before the emitting pass.  The file handle position
is modelled as exactly the lines the first scanner scanned; bufio
read-ahead can only leave the handle further along, and when the first
pass scans to end-of-file (as with an unset end bound) the model and the
implementation agree exactly. -/

/-- A metadata line as seen through json.Unmarshal into MetaEntry. -/
inductive MLine where
  | ent (key : String) (size : Int)
  | badJSON
deriving DecidableEq, Repr

/-- Whether a line makes the ReadMetadata loops break: a JSON parse
failure, or an entry whose key field is the empty string (in particular
the trailing summary line). -/
def stopsLine : MLine → Bool
  | .badJSON => true
  | .ent k _ => k = ""

/-- The accounting pass of ReadMetadata (lines 235-270): scans lines,
consuming start, bounded by end, striding; stops at the first examined
line that fails to parse or has an empty key.  It returns the number of
lines consumed from the reader and the leftover value of the shared start
variable (the totals it accumulates do not influence emission and are
omitted).  -/
def pass1 (stride : Nat) (endL : Int) :
    List MLine → Nat → Nat → Nat → Nat × Nat
  | [], start, _, _ => (0, start)
  | l :: rest, start, lineNumber, strider =>
    let ln := lineNumber + 1
    if 0 < start then
      let r := pass1 stride endL rest (start - 1) ln strider
      (r.1 + 1, r.2)
    else if endL ≠ -1 ∧ endL < (ln : Int) then (1, 0)
    else
      let st := if 1 < stride then (strider + 1) % stride else strider
      if 1 < stride ∧ st ≠ 1 then
        let r := pass1 stride endL rest 0 ln st
        (r.1 + 1, r.2)
      else
        match l with
        | .badJSON => (1, 0)
        | .ent k _ =>
          if k = "" then (1, 0)
          else
            let r := pass1 stride endL rest 0 ln st
            (r.1 + 1, r.2)

/-- The emitting pass of ReadMetadata (lines 273-327): same control flow
as the accounting pass, but entries whose key is in the skipFiles set
(read from upload.log) are dropped and the rest are sent as
DownloadTasks.  The second component collects ErrorEvents: ReadMetadata
posts none (a bad line is only logged and breaks the loop). -/
def pass2 (stride : Nat) (endL : Int) (skip : List String) :
    List MLine → Nat → Nat → Nat → List DownloadTask × List ErrorEvent
  | [], _, _, _ => ([], [])
  | l :: rest, start, lineNumber, strider =>
    let ln := lineNumber + 1
    if 0 < start then pass2 stride endL skip rest (start - 1) ln strider
    else if endL ≠ -1 ∧ endL < (ln : Int) then ([], [])
    else
      let st := if 1 < stride then (strider + 1) % stride else strider
      if 1 < stride ∧ st ≠ 1 then pass2 stride endL skip rest 0 ln st
      else
        match l with
        | .badJSON => ([], [])
        | .ent k sz =>
          if k = "" then ([], [])
          else if k ∈ skip then pass2 stride endL skip rest 0 ln st
          else
            let r := pass2 stride endL skip rest 0 ln st
            (⟨sz, k⟩ :: r.1, r.2)

/-- ReadMetadata: with no SUBSET the emitting pass runs over the whole
file with start 0, stride 1, end -1; with SUBSET=(start, stride, end) the
accounting pass first consumes lines (and decrements the shared start
variable), after which the emitting pass continues from the file handle
position the first pass left behind. -/
def readMetadataTasks (skip : List String) (subset : Option (Nat × Nat × Int))
    (lines : List MLine) : List DownloadTask × List ErrorEvent :=
  match subset with
  | none => pass2 1 (-1) skip lines 0 0 0
  | some (start, stride, endL) =>
    let p := pass1 stride endL lines start 0 0
    pass2 stride endL skip (lines.drop p.1) p.2 0 0

/-- Definition following the words of claim C4 and the spec (sections 4.2
and 8): include the metadata record at 1-based position N iff N > start,
N lies on the arithmetic progression start+1, start+1+stride, ... (stated
via congruence so that stride = 1 selects every line), and N ≤ end when
end is set. -/
def claimSubsetSelect (start stride : Nat) (endL : Int) (lines : List MLine) :
    List DownloadTask :=
  lines.enum.filterMap (fun p =>
    match p.2 with
    | .badJSON => none
    | .ent k sz =>
      let N := p.1 + 1
      if k ≠ "" ∧ start < N ∧ (N - start) % stride = 1 % stride
          ∧ (endL = -1 ∨ (N : Int) ≤ endL) then
        some ⟨sz, k⟩
      else none)

/-- Ten valid records followed by the summary line, the shape the indexer
produces. -/
def c4Lines : List MLine :=
  [.ent "k01" 1, .ent "k02" 1, .ent "k03" 1, .ent "k04" 1, .ent "k05" 1,
   .ent "k06" 1, .ent "k07" 1, .ent "k08" 1, .ent "k09" 1, .ent "k10" 1,
   .ent "" 0]

/-- C4 failing evaluation: with SUBSET=0:3 over ten records the claim (and
spec scenario 5) expects the records at positions 1, 4, 7, 10, but
ReadMetadata emits nothing: the accounting pass scans the shared file
handle to end-of-file (and consumes the start counter), so the emitting
pass starts at end-of-file.  Without SUBSET the same file emits all ten
records, isolating the fault to the subset path. -/
theorem readMetadata_subset_failing_eval :
    (readMetadataTasks [] (some (0, 3, -1)) c4Lines).1 = []
    ∧ claimSubsetSelect 0 3 (-1) c4Lines =
        [⟨1, "k01"⟩, ⟨1, "k04"⟩, ⟨1, "k07"⟩, ⟨1, "k10"⟩]
    ∧ (readMetadataTasks [] none c4Lines).1 =
        [⟨1, "k01"⟩, ⟨1, "k02"⟩, ⟨1, "k03"⟩, ⟨1, "k04"⟩, ⟨1, "k05"⟩,
         ⟨1, "k06"⟩, ⟨1, "k07"⟩, ⟨1, "k08"⟩, ⟨1, "k09"⟩, ⟨1, "k10"⟩]
    ∧ (readMetadataTasks [] (some (0, 3, -1)) c4Lines).1 ≠
        claimSubsetSelect 0 3 (-1) c4Lines := by
  decide

/-- Helper for C10: on the default path (start 0, stride 1, no end bound)
the emitting pass over (before ++ stop :: after) equals the pass over
before alone whenever every line of before parses with a non-empty key
and stop is a stopping line, for any line counter and strider value. -/
theorem pass2_truncates_at_stop (skip : List String) (after : List MLine)
    (stop : MLine) (hstop : stopsLine stop = true) :
    ∀ (before : List MLine), (∀ l ∈ before, stopsLine l = false) →
      ∀ (ln strider : Nat),
        pass2 1 (-1) skip (before ++ stop :: after) 0 ln strider
          = pass2 1 (-1) skip before 0 ln strider := by
  intro before
  induction before with
  | nil =>
    intro _ ln strider
    cases stop with
    | badJSON => simp [pass2]
    | ent k sz =>
      have hk : k = "" := by simpa [stopsLine] using hstop
      simp [pass2, hk]
  | cons l rest ih =>
    intro hgood ln strider
    have hl : stopsLine l = false := hgood l (List.mem_cons_self l rest)
    have hrest : ∀ x ∈ rest, stopsLine x = false :=
      fun x hx => hgood x (List.mem_cons_of_mem l hx)
    cases l with
    | badJSON => simp [stopsLine] at hl
    | ent k sz =>
      have hk : ¬ k = "" := by simpa [stopsLine] using hl
      by_cases hsk : k ∈ skip <;>
        simp [pass2, hk, hsk, ih hrest]

/-- The emitting pass never posts an ErrorEvent, on any input. -/
theorem pass2_errors_nil (stride : Nat) (endL : Int) (skip : List String) :
    ∀ (lines : List MLine) (start ln strider : Nat),
      (pass2 stride endL skip lines start ln strider).2 = [] := by
  intro lines
  induction lines with
  | nil => intro start ln strider; simp [pass2]
  | cons l rest ih =>
    intro start ln strider
    rw [pass2]
    by_cases h1 : 0 < start
    · simpa [h1] using ih (start - 1) (ln + 1) strider
    · simp only [if_neg h1]
      by_cases h2 : endL ≠ -1 ∧ endL < ((ln + 1 : Nat) : Int)
      · rw [if_pos h2]
      · rw [if_neg h2]
        cases l with
        | badJSON => split_ifs <;> simp [ih]
        | ent k sz => split_ifs <;> simp [ih] <;> split_ifs <;> simp [ih]

/-- C10: the ReadMetadata emitting loop stops at the first line that fails
to parse as JSON or parses to an entry with an empty key: every line after
it, valid or not, is ignored, no ErrorEvent is posted, and the trailing
summary line (which has no key field, hence unmarshals with key "") is
such a stopping line. -/
theorem readMetadata_stops_at_first_bad_line (skip : List String)
    (before after : List MLine) (stop : MLine)
    (hgood : ∀ l ∈ before, stopsLine l = false)
    (hstop : stopsLine stop = true) :
    (readMetadataTasks skip none (before ++ stop :: after)).1
      = (readMetadataTasks skip none before).1
    ∧ (readMetadataTasks skip none (before ++ stop :: after)).2 = []
    ∧ (∀ sz : Int, stopsLine (MLine.ent "" sz) = true) := by
  have h := pass2_truncates_at_stop skip after stop hstop before hgood 0 0
  refine ⟨by simp [readMetadataTasks, h], ?_, fun sz => rfl⟩
  rw [readMetadataTasks, h]
  exact pass2_errors_nil 1 (-1) skip before 0 0 0

/-- Witness for readMetadata_stops_at_first_bad_line: one good record, the
summary line as the stopping line, and one stray record after it. -/
theorem readMetadata_stops_at_first_bad_line_witness :
    (∀ l ∈ [MLine.ent "a" 1], stopsLine l = false)
    ∧ stopsLine (MLine.ent "" 0) = true
    ∧ ((readMetadataTasks [] none
          ([MLine.ent "a" 1] ++ MLine.ent "" 0 :: [MLine.ent "b" 2])).1
        = (readMetadataTasks [] none [MLine.ent "a" 1]).1
      ∧ (readMetadataTasks [] none
          ([MLine.ent "a" 1] ++ MLine.ent "" 0 :: [MLine.ent "b" 2])).2 = []
      ∧ (∀ sz : Int, stopsLine (MLine.ent "" sz) = true)) :=
  ⟨by decide, by decide,
    readMetadata_stops_at_first_bad_line [] [MLine.ent "a" 1] [MLine.ent "b" 2]
      (MLine.ent "" 0) (by decide) (by decide)⟩

/-! ## ReadLastLineJSONStats (src/file.go, lines 103-141)

The function stats the file; for size > 2000 it reads the last 2000 bytes
at offset size-2000, otherwise it reads at offset size (end of file), so
the 2000-byte buffer keeps its zero fill.  A line scanner then runs over
the buffer and the FIRST line that json.Unmarshal accepts is returned as
the FileStats.  To decide the claim, enough of encoding/json is embedded
to handle the whitespace-free flat objects the indexer writes: an object
of string keys with string or integer values, with unknown fields ignored
(Go semantics) and the whole line required to parse. -/

/-- FileStats from file.go: Count int64, Size int64 with json tags
total_objects / total_size. -/
structure FileStats where
  count : Int
  size : Int
deriving DecidableEq, Repr

/-- A flat JSON value: a string literal or an integer. -/
inductive JVal where
  | jstr (s : List Char)
  | jint (n : Int)
deriving DecidableEq, Repr

/-- Parse a string literal body after the opening quote: content up to the
closing quote; escape sequences do not occur in the indexer's output and
make the parse fail. -/
def parseStringLit : List Char → Option (List Char × List Char)
  | [] => none
  | c :: rest =>
    if c = '"' then some ([], rest)
    else if c = '\\' then none
    else
      match parseStringLit rest with
      | some (s, r) => some (c :: s, r)
      | none => none

/-- Parse an optionally signed decimal integer. -/
def parseIntLit (cs : List Char) : Option (Int × List Char) :=
  let neg := cs.head? = some '-'
  let body := if neg then cs.tail else cs
  let ds := body.takeWhile Char.isDigit
  let rest := body.dropWhile Char.isDigit
  if ds = [] then none
  else
    let v : Int := Int.ofNat (ds.foldl (fun a c => a * 10 + (c.toNat - 48)) 0)
    some (if neg then -v else v, rest)

/-- Parse one JSON value (string or integer). -/
def parseJVal (cs : List Char) : Option (JVal × List Char) :=
  match cs with
  | '"' :: rest =>
    match parseStringLit rest with
    | some (s, r) => some (.jstr s, r)
    | none => none
  | _ =>
    match parseIntLit cs with
    | some (n, r) => some (.jint n, r)
    | none => none

/-- Parse the key/value pairs of an object body (after the opening brace),
fuel-driven for structural recursion. -/
def parsePairs : Nat → List Char → Option (List (List Char × JVal) × List Char)
  | 0, _ => none
  | fuel + 1, cs =>
    match cs with
    | '"' :: rest =>
      match parseStringLit rest with
      | none => none
      | some (k, r1) =>
        match r1 with
        | ':' :: r2 =>
          match parseJVal r2 with
          | none => none
          | some (v, r3) =>
            if r3.head? = some ',' then
              match parsePairs fuel r3.tail with
              | some (ps, r) => some ((k, v) :: ps, r)
              | none => none
            else if r3.head? = some (Char.ofNat 125) then
              some ([(k, v)], r3.tail)
            else none
        | _ => none
    | _ => none

/-- Parse a whole line as a flat JSON object, requiring the entire line to
be consumed (json.Unmarshal rejects trailing data). -/
def jsonParseObj (cs : List Char) : Option (List (List Char × JVal)) :=
  match cs with
  | c :: rest =>
    if c = Char.ofNat 123 then
      if rest.head? = some (Char.ofNat 125) then
        if rest.tail = [] then some [] else none
      else
        match parsePairs (rest.length + 1) rest with
        | some (ps, r) => if r = [] then some ps else none
        | none => none
    else none
  | [] => none

/-- Look up a field expected to hold an integer: absent fields are fine
(zero value), a string in a known int64 field is a type error. -/
def fieldIntOpt (ps : List (List Char × JVal)) (name : List Char) :
    Option (Option Int) :=
  match ps.find? (fun p => p.1 = name) with
  | none => some none
  | some (_, .jint n) => some (some n)
  | some (_, .jstr _) => none

/-- json.Unmarshal of one line into FileStats: any valid flat object is
accepted, unknown fields are ignored, and absent total_objects /
total_size leave the zero value. -/
def unmarshalFileStats (line : List Char) : Option FileStats :=
  match jsonParseObj line with
  | none => none
  | some ps =>
    match fieldIntOpt ps "total_objects".data, fieldIntOpt ps "total_size".data with
    | some a, some b => some { count := a.getD 0, size := b.getD 0 }
    | _, _ => none

/-- Newline splitter with an accumulator (kept tail-recursive in the
character dimension so that concrete buffers evaluate inside the
kernel). -/
def splitLinesAux : List Char → List Char → List (List Char)
  | acc, [] => [acc.reverse]
  | acc, x :: xs =>
    if x = '\n' then acc.reverse :: splitLinesAux [] xs
    else splitLinesAux (x :: acc) xs

/-- Last character of a buffer, via the tail-recursive reverse. -/
def lastChar? (cs : List Char) : Option Char := cs.reverse.head?

/-- bufio ScanLines over a byte buffer: split on newline, no empty final
token when the data ends with a newline, carriage returns stripped. -/
def goScanLines (cs : List Char) : List (List Char) :=
  if cs = [] then []
  else
    let parts := splitLinesAux [] cs
    let parts2 := if lastChar? cs = some '\n' then parts.dropLast else parts
    parts2.map (fun l => if lastChar? l = some '\r' then l.dropLast else l)

/-- ReadLastLineJSONStats from file.go lines 103-141, on the file content:
empty file is an error; for size > 2000 the buffer is the last 2000
bytes, otherwise ReadAt at offset = size reads nothing and the buffer
stays zero-filled; the first buffer line accepted by json.Unmarshal is
returned, else the error "no last line found" (modelled as none). -/
def readLastLineJSONStats (content : List Char) : Option FileStats :=
  let size := content.length
  if size = 0 then none
  else
    let tmp : List Char :=
      if 2000 < size then content.drop (size - 2000)
      else List.replicate 2000 (Char.ofNat 0)
    (goScanLines tmp).findSome? unmarshalFileStats

/-- One indexer record line with key "k" and size 1. -/
def c6Record : List Char := "\x7b\"key\":\"k\",\"size\":1\x7d".data

/-- A small metadata file: one record plus the summary line. -/
def c6Small : List Char :=
  c6Record ++ '\n' :: ("\x7b\"total_objects\":1,\"total_size\":1\x7d".data ++ ['\n'])

/-- Splitting a buffer that contains no newline yields one line. -/
theorem splitLinesAux_no_newline (cs : List Char) (hnl : '\n' ∉ cs) :
    ∀ acc, splitLinesAux acc cs = [acc.reverse ++ cs] := by
  induction cs with
  | nil => intro acc; simp [splitLinesAux]
  | cons x xs ih =>
    intro acc
    have hx : ¬ x = '\n' := fun h => hnl (h ▸ List.mem_cons_self x xs)
    have hxs : '\n' ∉ xs := fun h => hnl (List.mem_cons_of_mem x h)
    rw [splitLinesAux, if_neg hx, ih hxs]
    simp

/-- The last character of a non-empty run of a repeated character. -/
theorem lastChar?_replicate (n : Nat) (c : Char) (hn : 0 < n) :
    lastChar? (List.replicate n c) = some c := by
  rw [lastChar?, List.reverse_replicate]
  cases n with
  | zero => omega
  | succ m => simp [List.replicate]

/-- A zero-filled buffer is scanned as a single line of NUL bytes. -/
theorem goScanLines_replicate_nul (n : Nat) (hn : 0 < n) :
    goScanLines (List.replicate n (Char.ofNat 0)) = [List.replicate n (Char.ofNat 0)] := by
  have hne : List.replicate n (Char.ofNat 0) ≠ [] := by
    cases n with
    | zero => omega
    | succ m => simp [List.replicate]
  have hnl : '\n' ∉ List.replicate n (Char.ofNat 0) := by
    intro h
    have := List.eq_of_mem_replicate h
    exact absurd this (by decide)
  rw [goScanLines, if_neg hne]
  rw [splitLinesAux_no_newline _ hnl []]
  simp [lastChar?_replicate n _ hn,
    show (Char.ofNat 0 : Char) ≠ '\n' from by decide,
    show (Char.ofNat 0 : Char) ≠ '\r' from by decide]

/-- A line of NUL bytes is not valid JSON. -/
theorem unmarshalFileStats_replicate_nul (n : Nat) (hn : 0 < n) :
    unmarshalFileStats (List.replicate n (Char.ofNat 0)) = none := by
  cases n with
  | zero => omega
  | succ m =>
    rw [List.replicate, unmarshalFileStats, jsonParseObj]
    rw [if_neg (by decide)]

/-- findSome? skips an element on which the function returns none. -/
theorem findSome?_cons_none {α β : Type} (f : α → Option β) (a : α) (l : List α)
    (h : f a = none) : List.findSome? f (a :: l) = List.findSome? f l := by
  simp only [List.findSome?, h]

/-- C6 failing evaluation.  First conjunct: for every non-empty metadata
file of at most 2000 bytes (such as the one-record file c6Small, whose
summary says total_objects = 1, total_size = 1) ReadLastLineJSONStats
returns an error, because for size <= 2000 the offset stays at size, the
ReadAt at end-of-file reads nothing, and the zero-filled buffer holds no
JSON.  Second conjunct: the summary line itself carries the totals the
claim expects.  Third conjunct: an ordinary record line is accepted by
json.Unmarshal into FileStats with both fields zero (all its fields are
unknown to FileStats), which is why on files larger than 2000 bytes the
first acceptable line of the 2000-byte tail window - normally a record
line - yields Count = 0, Size = 0 instead of the summary totals. -/
theorem readLastLineJSONStats_failing_eval :
    (∀ content : List Char, content ≠ [] → content.length ≤ 2000 →
      readLastLineJSONStats content = none)
    ∧ unmarshalFileStats ("\x7b\"total_objects\":1,\"total_size\":1\x7d".data)
        = some { count := 1, size := 1 }
    ∧ unmarshalFileStats c6Record = some { count := 0, size := 0 } := by
  refine ⟨?_, by decide, by decide⟩
  intro content hne hlen
  have hlen0 : ¬ content.length = 0 :=
    fun h => hne (List.eq_nil_of_length_eq_zero h)
  have h2000 : ¬ 2000 < content.length := by omega
  simp only [readLastLineJSONStats, if_neg hlen0, if_neg h2000]
  rw [goScanLines_replicate_nul 2000 (by omega)]
  rw [findSome?_cons_none _ _ _ (unmarshalFileStats_replicate_nul 2000 (by omega))]
  rfl

/-- Witness for readLastLineJSONStats_failing_eval: the first conjunct
applied to the 56-byte one-record metadata file. -/
theorem readLastLineJSONStats_failing_eval_witness :
    c6Small ≠ [] ∧ c6Small.length ≤ 2000 ∧ readLastLineJSONStats c6Small = none :=
  ⟨by decide, by decide,
    readLastLineJSONStats_failing_eval.1 c6Small (by decide) (by decide)⟩

/-! ## Byte-size parsing and humanization (src/common.go 48-70, src/progress.go 72-93)

parseByteSize runs fmt.Sscanf(s, "%d%s", &size, &unit): the %d verb takes
an optionally signed digit run, the %s verb the next whitespace-delimited
token, and both must succeed.  humanizeBytes converts the int64 to
float64, picks the largest binary unit not exceeding it and prints with
%.2f.  The float64 model below uses exact rational arithmetic plus
round-half-to-even at two decimals: on every input the theorems use
(multiples of a binary unit below 2^63, or any |x| < 2^53), the int64 to
float64 conversion, the comparisons and the division by a power of two
are all exact in float64, and Go's %.2f formatting rounds the exact value
to nearest, ties to even, which is exactly what fmtFixed2 computes. -/

/-- The %d verb after whitespace/sign handling: a non-empty digit run and
the rest of the input. -/
def parseNatDigits (cs : List Char) : Option (Nat × List Char) :=
  let ds := cs.takeWhile Char.isDigit
  let rest := cs.dropWhile Char.isDigit
  if ds = [] then none
  else some (ds.foldl (fun a c => a * 10 + (c.toNat - 48)) 0, rest)

/-- The %s verb: skip whitespace, take the next non-empty run of
non-whitespace characters; at end of input Sscanf reports an error. -/
def scanStrTok (cs : List Char) : Option (List Char) :=
  let cs2 := cs.dropWhile Char.isWhitespace
  let tok := cs2.takeWhile (fun c => !c.isWhitespace)
  if tok = [] then none else some tok

/-- fmt.Sscanf(s, "%d%s", &size, &unit): returns the parsed int64 and the
unit token, or none when n < 1 or err != nil in the Go code. -/
def goSscanfIntStr (cs : List Char) : Option (Int × List Char) :=
  let cs1 := cs.dropWhile Char.isWhitespace
  let neg := cs1.head? = some '-'
  let cs2 := if neg then cs1.tail else cs1
  match parseNatDigits cs2 with
  | none => none
  | some (n, rest) =>
    (scanStrTok rest).map (fun tok => (if neg then -(n : Int) else (n : Int), tok))

/-- parseByteSize from common.go lines 48-70. -/
def parseByteSize (s : String) : Option Int :=
  match goSscanfIntStr s.data with
  | none => none
  | some (size, unit) =>
    if unit = "".data ∨ unit = "B".data ∨ unit = "b".data then
      some size
    else if unit = "K".data ∨ unit = "KB".data ∨ unit = "k".data ∨ unit = "kb".data then
      some (size * 1024)
    else if unit = "M".data ∨ unit = "MB".data ∨ unit = "m".data ∨ unit = "mb".data then
      some (size * 1024 * 1024)
    else if unit = "G".data ∨ unit = "GB".data ∨ unit = "g".data ∨ unit = "gb".data then
      some (size * 1024 * 1024 * 1024)
    else if unit = "T".data ∨ unit = "TB".data ∨ unit = "t".data ∨ unit = "tb".data then
      some (size * 1024 * 1024 * 1024 * 1024)
    else none

/-- Decimal rendering of an int64. -/
def intToDecimal (x : Int) : List Char :=
  if x < 0 then '-' :: natToDecimal (-x).toNat else natToDecimal x.toNat

/-- Round num/den (den > 0) to the nearest integer, ties to even; this is
what %.2f does to the exactly-represented value scaled by 100. -/
def roundHalfEven (num den : Int) : Int :=
  let f := num.fdiv den
  let r2 := 2 * (num - f * den)
  if r2 < den then f
  else if den < r2 then f + 1
  else if f % 2 = 0 then f else f + 1

/-- The %.2f verb applied to the exact non-negative value num/den. -/
def fmtFixed2 (num den : Int) : List Char :=
  let n := roundHalfEven (num * 100) den
  let ip := n / 100
  let fp := n % 100
  natToDecimal ip.toNat ++ '.' ::
    (if fp < 10 then '0' :: natToDecimal fp.toNat else natToDecimal fp.toNat)

/-- humanizeBytes from progress.go lines 72-93 (KB/MB/GB/TB there denote
the binary units 2^10..2^40 and print as KiB/MiB/GiB/TiB).  float64(x)
and the comparison b >= unit are exact for every |x| < 2^63, and on the
inputs the theorems use (any |x| < 2^53, and every multiple of a binary
unit below 2^63) the division b/unit is exact as well, so it is modelled
as the exact rational x/unit handed to the %.2f rounding. -/
def humanizeBytes (x : Int) : String :=
  if x ≥ 1099511627776 then String.mk (fmtFixed2 x 1099511627776 ++ " TiB".data)
  else if x ≥ 1073741824 then String.mk (fmtFixed2 x 1073741824 ++ " GiB".data)
  else if x ≥ 1048576 then String.mk (fmtFixed2 x 1048576 ++ " MiB".data)
  else if x ≥ 1024 then String.mk (fmtFixed2 x 1024 ++ " KiB".data)
  else String.mk (intToDecimal x ++ " B".data)

/-- Digit characters are digits. -/
theorem natToDigitChar_isDigit (d : Nat) (h : d < 10) :
    (natToDigitChar d).isDigit = true := by
  interval_cases d <;> decide

/-- Digit characters decode back to their value. -/
theorem natToDigitChar_val (d : Nat) (h : d < 10) :
    (natToDigitChar d).toNat - 48 = d := by
  interval_cases d <;> decide

/-- The rendering helper does not depend on the fuel once it suffices. -/
theorem natToDecimalAux_stable (n : Nat) :
    ∀ f1 f2 : Nat, n < f1 → n < f2 → natToDecimalAux f1 n = natToDecimalAux f2 n := by
  induction n using Nat.strong_induction_on with
  | _ n ih =>
    intro f1 f2 h1 h2
    match f1, f2, h1, h2 with
    | a + 1, b + 1, _, _ =>
      rw [natToDecimalAux, natToDecimalAux]
      by_cases h10 : n < 10
      · rw [if_pos h10, if_pos h10]
      · rw [if_neg h10, if_neg h10]
        have hd : n / 10 < n := Nat.div_lt_self (by omega) (by omega)
        rw [ih (n / 10) hd a b (by omega) (by omega)]

/-- Unfolding equation for the decimal rendering. -/
theorem natToDecimal_eq (n : Nat) :
    natToDecimal n =
      if n < 10 then [natToDigitChar n]
      else natToDecimal (n / 10) ++ [natToDigitChar (n % 10)] := by
  rw [natToDecimal, natToDecimalAux]
  by_cases h10 : n < 10
  · rw [if_pos h10, if_pos h10]
  · rw [if_neg h10, if_neg h10, natToDecimal]
    have hd : n / 10 < n := Nat.div_lt_self (by omega) (by omega)
    rw [natToDecimalAux_stable (n / 10) n (n / 10 + 1) hd (by omega)]

/-- Every character of a rendered decimal is a digit. -/
theorem natToDecimal_all_digits (n : Nat) :
    ∀ c ∈ natToDecimal n, c.isDigit = true := by
  induction n using Nat.strong_induction_on with
  | _ n ih =>
    intro c hc
    rw [natToDecimal_eq] at hc
    by_cases h10 : n < 10
    · rw [if_pos h10] at hc
      simp at hc
      exact hc ▸ natToDigitChar_isDigit n h10
    · rw [if_neg h10] at hc
      rcases List.mem_append.1 hc with h | h
      · exact ih (n / 10) (Nat.div_lt_self (by omega) (by omega)) c h
      · simp at h
        exact h ▸ natToDigitChar_isDigit (n % 10) (Nat.mod_lt n (by omega))

/-- A rendered decimal is non-empty. -/
theorem natToDecimal_ne_nil (n : Nat) : natToDecimal n ≠ [] := by
  rw [natToDecimal_eq]
  by_cases h10 : n < 10
  · rw [if_pos h10]; simp
  · rw [if_neg h10]; simp

/-- Folding the digit values of a rendered decimal recovers the number. -/
theorem natToDecimal_val (n : Nat) :
    (natToDecimal n).foldl (fun a c => a * 10 + (c.toNat - 48)) 0 = n := by
  induction n using Nat.strong_induction_on with
  | _ n ih =>
    rw [natToDecimal_eq]
    by_cases h10 : n < 10
    · rw [if_pos h10]
      simp [List.foldl, natToDigitChar_val n h10]
    · rw [if_neg h10, List.foldl_append]
      rw [ih (n / 10) (Nat.div_lt_self (by omega) (by omega))]
      simp [List.foldl, natToDigitChar_val (n % 10) (Nat.mod_lt n (by omega))]
      omega

/-- A digit character is not whitespace. -/
theorem isDigit_not_ws {c : Char} (h : c.isDigit = true) : c.isWhitespace = false := by
  rcases hw : c.isWhitespace with _ | _
  · rfl
  · exfalso
    simp [Char.isWhitespace] at hw
    rcases hw with ((h1 | h1) | h1) | h1 <;> subst h1 <;> exact absurd h (by decide)

/-- A digit character is not the minus sign. -/
theorem isDigit_ne_minus {c : Char} (h : c.isDigit = true) : c ≠ '-' := by
  intro h1
  subst h1
  exact absurd h (by decide)

/-- takeWhile / dropWhile on a block satisfying the predicate followed by
a remainder that starts outside it. -/
theorem takeWhile_dropWhile_append (p : Char → Bool) (l r : List Char)
    (hl : ∀ c ∈ l, p c = true) (hr : ∀ c, r.head? = some c → p c = false) :
    (l ++ r).takeWhile p = l ∧ (l ++ r).dropWhile p = r := by
  induction l with
  | nil =>
    cases r with
    | nil => simp
    | cons c r2 =>
      have := hr c rfl
      simp [List.takeWhile_cons, List.dropWhile_cons, this]
  | cons x l2 ih =>
    have hx : p x = true := hl x (List.mem_cons_self x l2)
    have hl2 : ∀ c ∈ l2, p c = true := fun c hc => hl c (List.mem_cons_of_mem x hc)
    obtain ⟨ht, hd⟩ := ih hl2
    simp [List.takeWhile_cons, List.dropWhile_cons, hx, ht, hd]

/-- %d on a rendered decimal followed by a non-digit remainder. -/
theorem parseNatDigits_render (n : Nat) (rest : List Char)
    (hr : ∀ c, rest.head? = some c → c.isDigit = false) :
    parseNatDigits (natToDecimal n ++ rest) = some (n, rest) := by
  obtain ⟨ht, hd⟩ := takeWhile_dropWhile_append Char.isDigit (natToDecimal n) rest
    (natToDecimal_all_digits n) hr
  rw [parseNatDigits]
  simp only [ht, hd, if_neg (natToDecimal_ne_nil n), natToDecimal_val n]

/-- %d%s on a rendered non-negative decimal: the number parses back and
the unit token is scanned from the remainder. -/
theorem goSscanfIntStr_render (n : Nat) (rest : List Char)
    (hr : ∀ c, rest.head? = some c → c.isDigit = false) :
    goSscanfIntStr (natToDecimal n ++ rest)
      = (scanStrTok rest).map (fun tok => ((n : Int), tok)) := by
  obtain ⟨h0, t0, hht⟩ := List.exists_cons_of_ne_nil (natToDecimal_ne_nil n)
  have hdig : h0.isDigit = true := by
    apply natToDecimal_all_digits n
    rw [hht]
    exact List.mem_cons_self h0 t0
  rw [goSscanfIntStr]
  have hds : (natToDecimal n ++ rest).dropWhile Char.isWhitespace
      = natToDecimal n ++ rest := by
    rw [hht, List.cons_append, List.dropWhile_cons, isDigit_not_ws hdig]
    simp
  have hhead : (natToDecimal n ++ rest).head? = some h0 := by
    rw [hht]; rfl
  have hneg : ((natToDecimal n ++ rest).head? = some '-') = False := by
    rw [hhead]
    simp
    intro h
    exact isDigit_ne_minus hdig h
  simp only [hds, hneg, if_neg (by simp : ¬ False)]
  rw [parseNatDigits_render n rest hr]

/-- Heads that are not digits, cons form. -/
theorem head?_cons_not_digit {l : List Char} {x : Char} (hx : x.isDigit = false) :
    ∀ c, ((x :: l).head? = some c) → c.isDigit = false := by
  intro c hc
  simp [List.head?] at hc
  rw [← hc]
  exact hx

/-- C9 counterexample: humanizeBytes renders 1024 (an exact KiB boundary)
as 1.00 KiB, and parseByteSize rejects that string - Sscanf %d%s reads
size 1 and unit token .00, which matches no unit - so the round trip
parseByteSize(humanizeBytes x) fails rather than landing within one unit
of x. -/
theorem parse_humanize_roundtrip_counterexample :
    humanizeBytes 1024 = "1.00 KiB"
    ∧ parseByteSize (humanizeBytes 1024) = none
    ∧ parseByteSize "1.00 KiB" = none := by
  refine ⟨by decide, by decide, by decide⟩

/-- C9 amended: parseByteSize(humanizeBytes x) succeeds - and returns
exactly x - only for 0 <= x < 1024, where humanizeBytes prints a plain
"N B"; at every exact unit boundary at or above 1024 humanizeBytes prints
a two-decimal value such as 1.00 KiB whose fractional token makes
parseByteSize fail (shown at the KiB, MiB, GiB and TiB boundaries and at
the KiB multiple 1536*1024 = 1.50 MiB); parseByteSize does round-trip
exactly on integer-with-suffix forms: for every n, the strings nB, nK,
nM, nG, nT parse to n times the unit. -/
theorem parse_humanize_roundtrip_amended :
    (∀ x : Int, 0 ≤ x → x < 1024 → parseByteSize (humanizeBytes x) = some x)
    ∧ (∀ n : Nat,
        parseByteSize (String.mk (natToDecimal n ++ ['B'])) = some (n : Int)
        ∧ parseByteSize (String.mk (natToDecimal n ++ ['K'])) = some ((n : Int) * 1024)
        ∧ parseByteSize (String.mk (natToDecimal n ++ ['M']))
            = some ((n : Int) * 1024 * 1024)
        ∧ parseByteSize (String.mk (natToDecimal n ++ ['G']))
            = some ((n : Int) * 1024 * 1024 * 1024)
        ∧ parseByteSize (String.mk (natToDecimal n ++ ['T']))
            = some ((n : Int) * 1024 * 1024 * 1024 * 1024))
    ∧ parseByteSize (humanizeBytes 1024) = none
    ∧ parseByteSize (humanizeBytes 1048576) = none
    ∧ parseByteSize (humanizeBytes 1073741824) = none
    ∧ parseByteSize (humanizeBytes 1099511627776) = none
    ∧ parseByteSize (humanizeBytes (1536 * 1024)) = none := by
  refine ⟨?_, ?_, by decide, by decide, by decide, by decide, by decide⟩
  · intro x h0 h1
    rw [humanizeBytes, if_neg (by omega), if_neg (by omega), if_neg (by omega),
      if_neg (by omega), intToDecimal, if_neg (by omega)]
    simp only [parseByteSize]
    rw [goSscanfIntStr_render x.toNat (' ' :: ['B'])
      (head?_cons_not_digit (by decide))]
    rw [show scanStrTok (' ' :: ['B']) = some ['B'] from rfl]
    show some ((x.toNat : Int)) = some x
    rw [Int.toNat_of_nonneg h0]
  · intro n
    refine ⟨?_, ?_, ?_, ?_, ?_⟩ <;>
      · simp only [parseByteSize]
        rw [goSscanfIntStr_render n _ (head?_cons_not_digit (by decide))]
        rfl

/-- Witness for parse_humanize_roundtrip_amended: the below-1024 case at
x = 500, where the round trip is exact. -/
theorem parse_humanize_roundtrip_amended_witness :
    (0 : Int) ≤ 500 ∧ (500 : Int) < 1024
    ∧ parseByteSize (humanizeBytes 500) = some 500 :=
  ⟨by decide, by decide,
    parse_humanize_roundtrip_amended.1 500 (by decide) (by decide)⟩

end BucketArchiver
